import Mathlib

/-!
Shallow embedding of `scib/metrics/silhouette.py`.

The module has two functions:

* `silhouette`: wraps the library silhouette-score primitive on a named
  embedding slot and optionally rescales the score via `(v + 1) / 2`;
* `silhouette_batch`: for each distinct biological label, computes
  per-observation silhouette values against the batch labels, takes absolute
  values, optionally rescales via `1 - v`, collects the per-cell records,
  and aggregates them with a two-level (per-group, then across-group) mean.

Numeric values are modelled with `ℚ`.  The external sklearn primitives
(`silhouette_score`, `silhouette_samples`) are passed in as explicit function
parameters; observations are triples `(label, batch, embedding row)` aligned
by position, and an annotated data object carries named embedding slots and
named categorical columns.  Printing is modelled by returning a list of
emitted lines alongside the `Except` result; the final batch-ASW scalar is an
`Option ℚ` whose `none` stands for the NaN produced by a mean over an empty
table.
-/

/-- One embedding row: a vector of rational coordinates. -/
abbrev Vec : Type := List ℚ

/-- One observation row of `silhouette_batch`: (biological label, batch label,
embedding row). -/
abbrev Row : Type := String × String × Vec

/-- The external `silhouette_score` primitive: matrix, labels, metric name to
a single scalar. -/
abbrev ScoreFn : Type := List Vec → List String → String → ℚ

/-- The external `silhouette_samples` primitive: matrix, labels, metric name
to one value per row. -/
abbrev SamplesFn : Type := List Vec → List String → String → List ℚ

/-- Annotated data object: named embedding slots (`obsm`) and named
categorical observation columns (`obs`). -/
structure AData : Type where
  obsm : List (String × List Vec)
  obs : List (String × List String)

/-- Helper for `uniqueList`: keep the elements not yet seen, first
occurrences first. -/
def uniqueAux {α : Type} [DecidableEq α] : List α → List α → List α
  | _, [] => []
  | seen, x :: xs =>
    if x ∈ seen then uniqueAux seen xs else x :: uniqueAux (x :: seen) xs

/-- Distinct values of a list in order of first occurrence, as
`pandas.Series.unique` returns them. -/
def uniqueList {α : Type} [DecidableEq α] (l : List α) : List α :=
  uniqueAux [] l

/-- Mean of a list of rationals; `none` on the empty list models pandas
returning NaN for the mean of an empty column. -/
def meanQ (l : List ℚ) : Option ℚ :=
  if l.isEmpty then none else some (l.sum / l.length)

/-- Values carried by records of a given group in a per-cell table. -/
def groupVals (c : List (String × ℚ)) (g : String) : List ℚ :=
  (c.filter fun p => p.1 = g).map Prod.snd

/-- Mean of the values recorded for a given group. -/
def groupMean (c : List (String × ℚ)) (g : String) : ℚ :=
  (groupVals c g).sum / (groupVals c g).length

/-- Embedding of `DataFrame.groupby("group").mean()`: one row per distinct group label,
keys sorted (pandas sorts group keys by default), value the mean of that
group's records. -/
def groupbyMean (c : List (String × ℚ)) : List (String × ℚ) :=
  (List.insertionSort (fun a b => a ≤ b) (uniqueList (c.map Prod.fst))).map
    fun g => (g, groupMean c g)

/-- Embedding of `adata_group.obs[batch_key].nunique()`: distinct batch labels in the
sub-population whose biological label is `group`. -/
def nBatches (rows : List Row) (group : String) : ℕ :=
  (uniqueList ((rows.filter fun r => r.1 = group).map fun r => r.2.1)).length

/-- Embedding of `adata_group.shape[0]`: size of the sub-population of `group`. -/
def groupSize (rows : List Row) (group : String) : ℕ :=
  (rows.filter fun r => r.1 = group).length

/-- The per-cell records one loop iteration of `silhouette_batch` appends for
`group`: empty when the group is skipped, otherwise the per-observation
silhouette values of the sub-population against its batch labels, passed
through `abs` and, when `scale` is set, through `1 - ·`, each paired with the
group label. -/
def groupRecords (sil : SamplesFn) (rows : List Row) (metric : String)
    (scale : Bool) (group : String) : List (String × ℚ) :=
  let sub := rows.filter fun r => r.1 = group
  if nBatches rows group = 1 ∨ nBatches rows group = groupSize rows group then
    []
  else
    let sil_per_group := sil (sub.map fun r => r.2.2) (sub.map fun r => r.2.1) metric
    let sil_abs := sil_per_group.map fun v => |v|
    let sil_scaled := if scale then sil_abs.map fun v => 1 - v else sil_abs
    sil_scaled.map fun v => (group, v)

/-- The full per-cell table `sil_all`: the loop over
`adata.obs[label_key].unique()` concatenating each group's records. -/
def batchRecords (sil : SamplesFn) (groups : List String) (rows : List Row)
    (metric : String) (scale : Bool) : List (String × ℚ) :=
  groups.flatMap fun group => groupRecords sil rows metric scale group

/-- Return value of `silhouette_batch`: the batch-ASW scalar alone, or, with
`return_all`, the scalar together with the per-group mean table and the
per-cell table. -/
inductive BatchReturn : Type where
  | scalar (asw : Option ℚ)
  | all (asw : Option ℚ) (sil_means : List (String × ℚ))
      (sil_all : List (String × ℚ))
deriving DecidableEq

/-- The leading scalar of either form of a `silhouette_batch` return. -/
def BatchReturn.lead : BatchReturn → Option ℚ
  | .scalar asw => asw
  | .all asw _ _ => asw

/-- Embedding of `silhouette(adata, label_key, embed, metric, scale)`: check the embedding
slot (printing the available slot names and raising a KeyError when absent),
call the silhouette-score primitive, optionally rescale via `(asw + 1) / 2`.
The first component collects printed lines. -/
def silhouette (silScore : ScoreFn) (adata : AData) (label_key embed : String)
    (metric : String) (scale : Bool) : List String × Except String ℚ :=
  if embed ∈ adata.obsm.map Prod.fst then
    let asw := silScore ((adata.obsm.lookup embed).getD [])
      ((adata.obs.lookup label_key).getD []) metric
    ([], .ok (if scale then (asw + 1) / 2 else asw))
  else
    ([toString (adata.obsm.map Prod.fst)], .error (embed ++ " not in obsm"))

/-- Embedding of `silhouette_batch(adata, batch_key, label_key, embed, metric, return_all,
scale, verbose)`: check the embedding slot as in `silhouette`, build the
per-cell table over the distinct biological labels, aggregate it with
`groupby("group").mean()` and a final mean, print the per-group means when
`verbose`, and return the scalar (plus both tables when `return_all`). -/
def silhouette_batch (sil : SamplesFn) (adata : AData)
    (batch_key label_key embed metric : String)
    (return_all scale verbose : Bool) : List String × Except String BatchReturn :=
  if embed ∈ adata.obsm.map Prod.fst then
    let X := (adata.obsm.lookup embed).getD []
    let labels := (adata.obs.lookup label_key).getD []
    let batches := (adata.obs.lookup batch_key).getD []
    let rows := labels.zip (batches.zip X)
    let sil_all := batchRecords sil (uniqueList labels) rows metric scale
    let sil_means := groupbyMean sil_all
    let asw := meanQ (sil_means.map Prod.snd)
    let log := if verbose then ["mean silhouette per group: " ++ toString sil_means] else []
    (log, .ok (if return_all then .all asw sil_means sil_all else .scalar asw))
  else
    ([toString (adata.obsm.map Prod.fst)], .error (embed ++ " not in obsm"))

/-- Modelled from the spec: the external pairwise-distance/silhouette
primitive is out of scope of the source; per the spec it computes "the
standard silhouette coefficient per observation using pairwise distances
under the chosen metric and the given label partition".  The metric name is
interpreted by a distance-function family `d`.  `silSampleModel` is the
coefficient of one observation `p` against the whole population `rows`:
`a` the mean distance to its own cluster (self excluded), `b` the smallest
mean distance to another cluster, the coefficient `(b - a) / max a b`, and
`0` for an observation in a singleton cluster. -/
def silSampleModel (d : Vec → Vec → ℚ) (rows : List (Vec × String))
    (p : Vec × String) : ℚ :=
  let same := rows.filter fun r => r.2 = p.2
  if same.length ≤ 1 then 0
  else
    let a := ((same.map fun r => d p.1 r.1).sum) / (same.length - 1 : ℕ)
    let clusterMean := fun (c : String) =>
      let cl := rows.filter fun r => r.2 = c
      ((cl.map fun r => d p.1 r.1).sum) / cl.length
    let b := (((((rows.map Prod.snd).toFinset.erase p.2)).image clusterMean).min).untop' 0
    (b - a) / max a b

/-- Modelled from the spec: the external `silhouette_score` primitive,
"average over all observations" of the per-observation silhouette
coefficients. -/
def silhouette_score_model (d : String → Vec → Vec → ℚ) (X : List Vec)
    (labels : List String) (metric : String) : ℚ :=
  let rows := X.zip labels
  let s := rows.map (silSampleModel (d metric) rows)
  s.sum / s.length

/-! ### Basic lemmas about the auxiliary definitions -/

theorem uniqueList_nil {α : Type} [DecidableEq α] : uniqueList ([] : List α) = [] :=
  rfl

theorem mem_uniqueAux {α : Type} [DecidableEq α] {a : α} :
    ∀ (l seen : List α), a ∈ uniqueAux seen l ↔ a ∈ l ∧ a ∉ seen := by
  intro l
  induction l with
  | nil => intro seen; simp [uniqueAux]
  | cons x xs ih =>
    intro seen
    by_cases hx : x ∈ seen
    · rw [uniqueAux, if_pos hx, ih]
      constructor
      · exact fun h => ⟨List.mem_cons_of_mem _ h.1, h.2⟩
      · rintro ⟨hmem, hns⟩
        rcases List.mem_cons.mp hmem with rfl | hmem
        · exact absurd hx hns
        · exact ⟨hmem, hns⟩
    · rw [uniqueAux, if_neg hx]
      by_cases hax : a = x
      · subst hax; simp [hx]
      · simp only [List.mem_cons, hax, false_or, ih]

theorem nodup_uniqueAux {α : Type} [DecidableEq α] :
    ∀ (l seen : List α), (uniqueAux seen l).Nodup := by
  intro l
  induction l with
  | nil => intro seen; simp [uniqueAux]
  | cons x xs ih =>
    intro seen
    by_cases hx : x ∈ seen
    · rw [uniqueAux, if_pos hx]; exact ih seen
    · rw [uniqueAux, if_neg hx]
      refine List.nodup_cons.mpr ⟨fun hmem => ?_, ih (x :: seen)⟩
      have := (mem_uniqueAux xs (x :: seen)).mp hmem
      exact this.2 (List.mem_cons_self x seen)

theorem mem_uniqueList {α : Type} [DecidableEq α] {a : α} {l : List α} :
    a ∈ uniqueList l ↔ a ∈ l := by
  unfold uniqueList
  rw [mem_uniqueAux]
  simp

theorem nodup_uniqueList {α : Type} [DecidableEq α] {l : List α} :
    (uniqueList l).Nodup :=
  nodup_uniqueAux l []

theorem groupRecords_fst {sil : SamplesFn} {rows : List Row} {metric : String}
    {scale : Bool} {group : String} :
    ∀ p ∈ groupRecords sil rows metric scale group, p.1 = group := by
  intro p hp
  unfold groupRecords at hp
  by_cases hskip : nBatches rows group = 1 ∨ nBatches rows group = groupSize rows group
  · simp [hskip] at hp
  · simp only [hskip, if_false] at hp
    rcases List.mem_map.mp hp with ⟨v, hv, rfl⟩
    rfl

theorem filter_groupRecords (sil : SamplesFn) (rows : List Row) (metric : String)
    (scale : Bool) (group g : String) :
    (groupRecords sil rows metric scale group).filter (fun p => p.1 = g)
      = if g = group then groupRecords sil rows metric scale group else [] := by
  by_cases hg : g = group
  · subst hg
    simp only [if_pos rfl]
    apply List.filter_eq_self.mpr
    intro p hp
    simpa using groupRecords_fst p hp
  · simp only [hg, if_false]
    apply List.filter_eq_nil_iff.mpr
    intro p hp
    have := groupRecords_fst p hp
    simp only [this, decide_eq_true_eq]
    exact fun h => hg h.symm

theorem filter_flatMap_records {α : Type} (groups : List α)
    (f : α → List (String × ℚ)) (p : String × ℚ → Bool) :
    (groups.flatMap f).filter p = groups.flatMap fun a => (f a).filter p := by
  induction groups with
  | nil => simp
  | cons a t ih => simp [List.flatMap_cons, List.filter_append, ih]

theorem filter_batchRecords (sil : SamplesFn) (groups : List String)
    (rows : List Row) (metric : String) (scale : Bool) (g : String)
    (hnd : groups.Nodup) (hg : g ∈ groups) :
    (batchRecords sil groups rows metric scale).filter (fun p => p.1 = g)
      = groupRecords sil rows metric scale g := by
  unfold batchRecords
  rw [filter_flatMap_records]
  induction groups with
  | nil => simp at hg
  | cons a t ih =>
    rcases List.nodup_cons.mp hnd with ⟨ha, hnt⟩
    rcases List.mem_cons.mp hg with hga | hgt
    · subst hga
      have ht : ∀ b ∈ t, (groupRecords sil rows metric scale b).filter
          (fun p => decide (p.1 = g)) = [] := by
        intro b hb
        rw [filter_groupRecords]
        have : g ≠ b := fun h => ha (h ▸ hb)
        simp [this]
      rw [List.flatMap_cons]
      rw [List.flatMap_congr ht]
      simp [filter_groupRecords]
    · have hag : g ≠ a := fun h => ha (h ▸ hgt)
      rw [List.flatMap_cons, filter_groupRecords]
      simp only [hag, if_false, List.nil_append]
      exact ih hnt hgt

theorem filter_batchRecords_of_notMem (sil : SamplesFn) (groups : List String)
    (rows : List Row) (metric : String) (scale : Bool) (g : String)
    (hg : g ∉ groups) :
    (batchRecords sil groups rows metric scale).filter (fun p => p.1 = g) = [] := by
  unfold batchRecords
  rw [filter_flatMap_records]
  apply List.flatMap_eq_nil_iff.mpr
  intro b hb
  rw [filter_groupRecords]
  have : g ≠ b := fun h => hg (h ▸ hb)
  simp [this]

theorem groupbyMean_map_fst (c : List (String × ℚ)) :
    (groupbyMean c).map Prod.fst
      = List.insertionSort (fun a b => a ≤ b) (uniqueList (c.map Prod.fst)) := by
  unfold groupbyMean
  rw [List.map_map]
  exact List.map_id _

theorem mem_groupbyMean_fst {c : List (String × ℚ)} {g : String} :
    g ∈ (groupbyMean c).map Prod.fst ↔ g ∈ c.map Prod.fst := by
  rw [groupbyMean_map_fst]
  rw [List.mem_insertionSort]
  exact mem_uniqueList

theorem snd_of_mem_groupbyMean {c : List (String × ℚ)} {p : String × ℚ}
    (hp : p ∈ groupbyMean c) : p.2 = groupMean c p.1 := by
  unfold groupbyMean at hp
  rcases List.mem_map.mp hp with ⟨g, hg, rfl⟩
  rfl

theorem nodup_groupbyMean_fst (c : List (String × ℚ)) :
    ((groupbyMean c).map Prod.fst).Nodup := by
  rw [groupbyMean_map_fst]
  exact ((List.perm_insertionSort _ _).nodup_iff).mpr nodup_uniqueList

theorem groupVals_ne_nil {c : List (String × ℚ)} {g : String}
    (hg : g ∈ c.map Prod.fst) : groupVals c g ≠ [] := by
  rcases List.mem_map.mp hg with ⟨p, hp, rfl⟩
  unfold groupVals
  intro h
  have : p ∈ c.filter fun q => q.1 = p.1 := List.mem_filter.mpr ⟨hp, by simp⟩
  rw [List.map_eq_nil_iff.mp h] at this
  simp at this

theorem sum_map_one_sub (l : List ℚ) :
    (l.map fun v => 1 - v).sum = l.length - l.sum := by
  induction l with
  | nil => simp
  | cons a t ih =>
    simp only [List.map_cons, List.sum_cons, ih, List.length_cons]
    push_cast
    ring

/-- Two-level-average form of the aggregation at the tail of
`silhouette_batch`: the mean over the per-group mean table equals the
unweighted mean, over the set of distinct group labels of the per-cell
table, of the per-group means. -/
theorem meanQ_groupbyMean (c : List (String × ℚ)) :
    meanQ ((groupbyMean c).map Prod.snd)
      = if c = [] then none
        else some ((∑ g ∈ (c.map Prod.fst).toFinset, groupMean c g)
          / ((c.map Prod.fst).toFinset.card : ℚ)) := by
  have hkeys : ((groupbyMean c).map Prod.fst).toFinset = (c.map Prod.fst).toFinset := by
    ext a
    simp only [List.mem_toFinset]
    exact mem_groupbyMean_fst
  have hnd := nodup_groupbyMean_fst c
  by_cases hc : c = []
  · subst hc
    simp [meanQ, groupbyMean, uniqueList_nil]
  · have hne : groupbyMean c ≠ [] := by
      intro h
      rcases List.exists_mem_of_ne_nil c hc with ⟨p, hp⟩
      have : p.1 ∈ c.map Prod.fst := List.mem_map.mpr ⟨p, hp, rfl⟩
      have := mem_groupbyMean_fst.mpr this
      rw [h] at this
      simp at this
    have hlen : ((groupbyMean c).map Prod.snd).length = (c.map Prod.fst).toFinset.card := by
      rw [← hkeys, List.toFinset_card_of_nodup hnd]
      simp
    have hsum : ((groupbyMean c).map Prod.snd).sum
        = ∑ g ∈ (c.map Prod.fst).toFinset, groupMean c g := by
      rw [← hkeys, List.sum_toFinset _ hnd]
      simp [groupbyMean, List.map_map, Function.comp_def]
    rw [meanQ, if_neg (by simpa using hne), hsum, hlen]
    simp [hc]

/-! ### Claim theorems -/

/-- C7: two `silhouette_batch` calls whose arguments agree except for
`return_all` yield the same leading scalar: the `return_all=false` scalar
equals the first component of the `return_all=true` triple. -/
theorem c7_return_all_same_leading_scalar (sil : SamplesFn) (adata : AData)
    (batch_key label_key embed metric : String) (scale verbose : Bool) :
    Except.map BatchReturn.lead
        (silhouette_batch sil adata batch_key label_key embed metric false scale verbose).2
      = Except.map BatchReturn.lead
        (silhouette_batch sil adata batch_key label_key embed metric true scale verbose).2 := by
  unfold silhouette_batch
  by_cases h : embed ∈ adata.obsm.map Prod.fst
  · simp [h, BatchReturn.lead, Except.map]
  · simp [h, Except.map]

/-- C5: calling either function with an embedding-slot name absent from
`obsm` yields the key-not-found error carrying the requested name, with the
available slot names emitted as the diagnostic line; the result is the same
for every silhouette primitive, so no grouping or distance computation can
have run. -/
theorem c5_missing_embed_error (silScore : ScoreFn) (sil : SamplesFn)
    (adata : AData) (batch_key label_key embed metric : String)
    (return_all scale verbose : Bool)
    (h : embed ∉ adata.obsm.map Prod.fst) :
    silhouette silScore adata label_key embed metric scale
        = ([toString (adata.obsm.map Prod.fst)], Except.error (embed ++ " not in obsm"))
      ∧ silhouette_batch sil adata batch_key label_key embed metric return_all scale verbose
        = ([toString (adata.obsm.map Prod.fst)], Except.error (embed ++ " not in obsm")) := by
  unfold silhouette silhouette_batch
  simp [h]

/-- Witness for C5 at a concrete dataset and a missing slot name. -/
theorem c5_missing_embed_error_witness :
    silhouette (fun _ _ _ => 0) ⟨[("e", [[0]])], [("l", ["a"])]⟩ "l" "x" "euclidean" true
        = ([toString ["e"]], Except.error ("x" ++ " not in obsm"))
      ∧ silhouette_batch (fun _ _ _ => []) ⟨[("e", [[0]])], [("l", ["a"])]⟩
          "b" "l" "x" "euclidean" false true true
        = ([toString ["e"]], Except.error ("x" ++ " not in obsm")) :=
  c5_missing_embed_error (fun _ _ _ => 0) (fun _ _ _ => [])
    ⟨[("e", [[0]])], [("l", ["a"])]⟩ "b" "l" "x" "euclidean" false true true (by decide)

/-- C3: when the unscaled call succeeds with value `v`, the scaled call
returns exactly `(v + 1) / 2`, and given `v ∈ [-1, 1]` that value lies in
`[0, 1]`. -/
theorem c3_scaled_asw (silScore : ScoreFn) (adata : AData)
    (label_key embed metric : String) (v : ℚ)
    (h : (silhouette silScore adata label_key embed metric false).2 = Except.ok v)
    (hv : -1 ≤ v ∧ v ≤ 1) :
    (silhouette silScore adata label_key embed metric true).2 = Except.ok ((v + 1) / 2)
      ∧ 0 ≤ (v + 1) / 2 ∧ (v + 1) / 2 ≤ 1 := by
  unfold silhouette at h ⊢
  by_cases hm : embed ∈ adata.obsm.map Prod.fst
  · simp only [hm, if_true, if_pos] at h ⊢
    simp only [Bool.false_eq_true, if_false, Except.ok.injEq] at h
    refine ⟨by simp [h], by linarith [hv.1], by linarith [hv.2]⟩
  · simp [hm] at h

/-- Witness for C3 at a constant score primitive returning `1/3`. -/
theorem c3_scaled_asw_witness :
    (silhouette (fun _ _ _ => 1/3) ⟨[("e", [[0]])], [("l", ["a"])]⟩ "l" "e" "euclidean" true).2
        = Except.ok ((1/3 + 1) / 2)
      ∧ 0 ≤ ((1:ℚ)/3 + 1) / 2 ∧ ((1:ℚ)/3 + 1) / 2 ≤ 1 :=
  c3_scaled_asw (fun _ _ _ => 1/3) ⟨[("e", [[0]])], [("l", ["a"])]⟩ "l" "e" "euclidean"
    (1/3) (by simp [silhouette]) (by norm_num)

/-- Inversion of a successful `return_all=true` call: the per-cell table is
`batchRecords` over the distinct labels, the mean table is its
`groupbyMean`, and the scalar is the mean of the mean-table values. -/
theorem silhouette_batch_all_inv (sil : SamplesFn) (adata : AData)
    (batch_key label_key embed metric : String) (scale verbose : Bool)
    (log : List String) (asw : Option ℚ) (m c : List (String × ℚ))
    (hcall : silhouette_batch sil adata batch_key label_key embed metric true scale verbose
      = (log, Except.ok (BatchReturn.all asw m c))) :
    c = batchRecords sil (uniqueList ((adata.obs.lookup label_key).getD []))
          (((adata.obs.lookup label_key).getD []).zip
            (((adata.obs.lookup batch_key).getD []).zip ((adata.obsm.lookup embed).getD [])))
          metric scale
      ∧ m = groupbyMean c ∧ asw = meanQ ((groupbyMean c).map Prod.snd) := by
  by_cases hm : embed ∈ adata.obsm.map Prod.fst
  · rw [silhouette_batch, if_pos hm] at hcall
    simp only [if_true, Prod.mk.injEq, Except.ok.injEq, BatchReturn.all.injEq] at hcall
    obtain ⟨-, ha, hmm, hc⟩ := hcall
    subst hc
    subst hmm
    subst ha
    exact ⟨rfl, rfl, rfl⟩
  · rw [silhouette_batch, if_neg hm] at hcall
    simp at hcall

/-- C2: a biological group whose sub-population has exactly one distinct
batch value, or as many distinct batch values as observations, produces no
per-cell record and never appears in the per-group mean table. -/
theorem c2_degenerate_groups_skipped (sil : SamplesFn) (adata : AData)
    (batch_key label_key embed metric : String) (scale verbose : Bool)
    (g : String) (log : List String) (asw : Option ℚ) (m c : List (String × ℚ))
    (hcall : silhouette_batch sil adata batch_key label_key embed metric true scale verbose
      = (log, Except.ok (BatchReturn.all asw m c)))
    (hg : g ∈ uniqueList ((adata.obs.lookup label_key).getD []))
    (hskip : nBatches (((adata.obs.lookup label_key).getD []).zip
          (((adata.obs.lookup batch_key).getD []).zip ((adata.obsm.lookup embed).getD []))) g = 1
      ∨ nBatches (((adata.obs.lookup label_key).getD []).zip
          (((adata.obs.lookup batch_key).getD []).zip ((adata.obsm.lookup embed).getD []))) g
        = groupSize (((adata.obs.lookup label_key).getD []).zip
          (((adata.obs.lookup batch_key).getD []).zip ((adata.obsm.lookup embed).getD []))) g) :
    c.filter (fun p => p.1 = g) = [] ∧ g ∉ m.map Prod.fst := by
  obtain ⟨hc, hmm, -⟩ :=
    silhouette_batch_all_inv sil adata batch_key label_key embed metric scale verbose
      log asw m c hcall
  have hfil : c.filter (fun p => p.1 = g) = [] := by
    rw [hc, filter_batchRecords _ _ _ _ _ _ nodup_uniqueList hg]
    unfold groupRecords
    rw [if_pos hskip]
  refine ⟨hfil, fun hgm => ?_⟩
  rw [hmm] at hgm
  have hmem := mem_groupbyMean_fst.mp hgm
  rcases List.mem_map.mp hmem with ⟨p, hp, rfl⟩
  have hpf : p ∈ c.filter fun q => q.1 = p.1 := List.mem_filter.mpr ⟨hp, by simp⟩
  rw [hfil] at hpf
  simp at hpf

/-- C6: when the embedding slot exists and every distinct biological group
satisfies the skip rule, `silhouette_batch` raises no error and returns the
NaN sentinel produced by the mean of an empty table. -/
theorem c6_all_groups_skipped_nan (sil : SamplesFn) (adata : AData)
    (batch_key label_key embed metric : String) (scale verbose : Bool)
    (hm : embed ∈ adata.obsm.map Prod.fst)
    (hskip : ∀ g ∈ uniqueList ((adata.obs.lookup label_key).getD []),
      nBatches (((adata.obs.lookup label_key).getD []).zip
          (((adata.obs.lookup batch_key).getD []).zip ((adata.obsm.lookup embed).getD []))) g = 1
      ∨ nBatches (((adata.obs.lookup label_key).getD []).zip
          (((adata.obs.lookup batch_key).getD []).zip ((adata.obsm.lookup embed).getD []))) g
        = groupSize (((adata.obs.lookup label_key).getD []).zip
          (((adata.obs.lookup batch_key).getD []).zip ((adata.obsm.lookup embed).getD []))) g) :
    (silhouette_batch sil adata batch_key label_key embed metric false scale verbose).2
      = Except.ok (BatchReturn.scalar none) := by
  rw [silhouette_batch, if_pos hm]
  have hrec : batchRecords sil (uniqueList ((adata.obs.lookup label_key).getD []))
      (((adata.obs.lookup label_key).getD []).zip
        (((adata.obs.lookup batch_key).getD []).zip ((adata.obsm.lookup embed).getD [])))
      metric scale = [] := by
    unfold batchRecords
    apply List.flatMap_eq_nil_iff.mpr
    intro g hg
    unfold groupRecords
    rw [if_pos (hskip g hg)]
  simp only [hrec]
  simp [groupbyMean, uniqueList, uniqueAux, meanQ]

/-- C1: the batch-ASW scalar of a successful call is the two-level
unweighted average of the per-cell table: the mean over the set of distinct
group labels of the per-group mean values. -/
theorem c1_batch_asw_two_level_mean (sil : SamplesFn) (adata : AData)
    (batch_key label_key embed metric : String) (scale verbose : Bool)
    (log : List String) (asw : Option ℚ) (m c : List (String × ℚ))
    (hcall : silhouette_batch sil adata batch_key label_key embed metric true scale verbose
      = (log, Except.ok (BatchReturn.all asw m c))) :
    asw = if c = [] then none
      else some ((∑ g ∈ (c.map Prod.fst).toFinset, groupMean c g)
        / ((c.map Prod.fst).toFinset.card : ℚ)) := by
  obtain ⟨-, -, ha⟩ :=
    silhouette_batch_all_inv sil adata batch_key label_key embed metric scale verbose
      log asw m c hcall
  rw [ha, meanQ_groupbyMean]

/-- C10: in a successful `return_all=true` call, the mean table's label set
equals the per-cell table's distinct label set, each mean-table entry is the
mean of exactly the per-cell values with that label, and the per-cell table
is the concatenation of its per-group blocks in first-encounter order of the
biological label column. -/
theorem c10_tables_consistent (sil : SamplesFn) (adata : AData)
    (batch_key label_key embed metric : String) (scale verbose : Bool)
    (log : List String) (asw : Option ℚ) (m c : List (String × ℚ))
    (hcall : silhouette_batch sil adata batch_key label_key embed metric true scale verbose
      = (log, Except.ok (BatchReturn.all asw m c))) :
    (m.map Prod.fst).toFinset = (c.map Prod.fst).toFinset
      ∧ (∀ p ∈ m, p.2 = groupMean c p.1)
      ∧ c = (uniqueList ((adata.obs.lookup label_key).getD [])).flatMap
          fun g => c.filter fun p => p.1 = g := by
  obtain ⟨hc, hmm, -⟩ :=
    silhouette_batch_all_inv sil adata batch_key label_key embed metric scale verbose
      log asw m c hcall
  refine ⟨?_, ?_, ?_⟩
  · rw [hmm]
    ext a
    simp only [List.mem_toFinset]
    exact mem_groupbyMean_fst
  · intro p hp
    rw [hmm] at hp
    exact snd_of_mem_groupbyMean hp
  · conv_lhs => rw [hc]
    rw [List.flatMap_congr fun g hg => by
      rw [hc, filter_batchRecords _ _ _ _ _ _ nodup_uniqueList hg]]
    rfl

/-- C4: for a non-skipped group, the per-cell records of that group are, in
order, the raw silhouette values of the sub-population mapped through
`1 - |s|` when `scale` and `|s|` otherwise; when every raw value lies in
`[-1, 1]`, each recorded value lies in `[0, 1]`. -/
theorem c4_per_cell_transform (sil : SamplesFn) (adata : AData)
    (batch_key label_key embed metric : String) (scale verbose : Bool)
    (g : String) (log : List String) (asw : Option ℚ) (m c : List (String × ℚ))
    (hcall : silhouette_batch sil adata batch_key label_key embed metric true scale verbose
      = (log, Except.ok (BatchReturn.all asw m c)))
    (hg : g ∈ uniqueList ((adata.obs.lookup label_key).getD []))
    (hns : ¬(nBatches (((adata.obs.lookup label_key).getD []).zip
          (((adata.obs.lookup batch_key).getD []).zip ((adata.obsm.lookup embed).getD []))) g = 1
      ∨ nBatches (((adata.obs.lookup label_key).getD []).zip
          (((adata.obs.lookup batch_key).getD []).zip ((adata.obsm.lookup embed).getD []))) g
        = groupSize (((adata.obs.lookup label_key).getD []).zip
          (((adata.obs.lookup batch_key).getD []).zip ((adata.obsm.lookup embed).getD []))) g))
    (hraw : ∀ s ∈ sil (((((adata.obs.lookup label_key).getD []).zip
            (((adata.obs.lookup batch_key).getD []).zip
              ((adata.obsm.lookup embed).getD []))).filter (fun r => r.1 = g)).map
            (fun r => r.2.2))
          (((((adata.obs.lookup label_key).getD []).zip
            (((adata.obs.lookup batch_key).getD []).zip
              ((adata.obsm.lookup embed).getD []))).filter (fun r => r.1 = g)).map
            (fun r => r.2.1)) metric,
      -1 ≤ s ∧ s ≤ 1) :
    c.filter (fun p => p.1 = g)
        = (sil (((((adata.obs.lookup label_key).getD []).zip
              (((adata.obs.lookup batch_key).getD []).zip
                ((adata.obsm.lookup embed).getD []))).filter (fun r => r.1 = g)).map
              (fun r => r.2.2))
            (((((adata.obs.lookup label_key).getD []).zip
              (((adata.obs.lookup batch_key).getD []).zip
                ((adata.obsm.lookup embed).getD []))).filter (fun r => r.1 = g)).map
              (fun r => r.2.1)) metric).map
            (fun s => (g, if scale then 1 - |s| else |s|))
      ∧ ∀ q ∈ c.filter (fun p => p.1 = g), 0 ≤ q.2 ∧ q.2 ≤ 1 := by
  obtain ⟨hc, -, -⟩ :=
    silhouette_batch_all_inv sil adata batch_key label_key embed metric scale verbose
      log asw m c hcall
  have heq : c.filter (fun p => p.1 = g)
      = (sil (((((adata.obs.lookup label_key).getD []).zip
            (((adata.obs.lookup batch_key).getD []).zip
              ((adata.obsm.lookup embed).getD []))).filter (fun r => r.1 = g)).map
            (fun r => r.2.2))
          (((((adata.obs.lookup label_key).getD []).zip
            (((adata.obs.lookup batch_key).getD []).zip
              ((adata.obsm.lookup embed).getD []))).filter (fun r => r.1 = g)).map
            (fun r => r.2.1)) metric).map
          (fun s => (g, if scale then 1 - |s| else |s|)) := by
    rw [hc, filter_batchRecords _ _ _ _ _ _ nodup_uniqueList hg]
    unfold groupRecords
    rw [if_neg hns]
    cases scale with
    | false => simp [List.map_map]
    | true => simp [List.map_map]
  refine ⟨heq, fun q hq => ?_⟩
  rw [heq] at hq
  rcases List.mem_map.mp hq with ⟨s, hs, rfl⟩
  obtain ⟨hs1, hs2⟩ := hraw s hs
  have habs : |s| ≤ 1 := abs_le.mpr ⟨hs1, hs2⟩
  have habs0 : 0 ≤ |s| := abs_nonneg s
  cases scale with
  | false => exact ⟨habs0, habs⟩
  | true =>
    refine ⟨?_, ?_⟩
    · show (0 : ℚ) ≤ 1 - |s|
      linarith
    · show (1 : ℚ) - |s| ≤ 1
      linarith

theorem groupRecords_scale_true (sil : SamplesFn) (rows : List Row)
    (metric : String) (group : String) :
    groupRecords sil rows metric true group
      = (groupRecords sil rows metric false group).map fun p => (p.1, 1 - p.2) := by
  unfold groupRecords
  by_cases hs : nBatches rows group = 1 ∨ nBatches rows group = groupSize rows group
  · simp [hs]
  · simp only [hs, if_false]
    simp [List.map_map, Function.comp_def]

theorem batchRecords_scale_true (sil : SamplesFn) (groups : List String)
    (rows : List Row) (metric : String) :
    batchRecords sil groups rows metric true
      = (batchRecords sil groups rows metric false).map fun p => (p.1, 1 - p.2) := by
  unfold batchRecords
  rw [List.map_flatMap]
  exact List.flatMap_congr fun g hg => groupRecords_scale_true sil rows metric g

theorem groupVals_map_one_sub (c : List (String × ℚ)) (g : String) :
    groupVals (c.map fun p => (p.1, 1 - p.2)) g = (groupVals c g).map fun v => 1 - v := by
  unfold groupVals
  rw [List.filter_map, List.map_map, List.map_map]
  rfl

theorem groupMean_map_one_sub (c : List (String × ℚ)) (g : String)
    (hg : g ∈ c.map Prod.fst) :
    groupMean (c.map fun p => (p.1, 1 - p.2)) g = 1 - groupMean c g := by
  unfold groupMean
  rw [groupVals_map_one_sub, sum_map_one_sub, List.length_map]
  have hne := groupVals_ne_nil hg
  have hlen : ((groupVals c g).length : ℚ) ≠ 0 := by
    have := List.length_pos.mpr hne
    positivity
  field_simp

theorem groupbyMean_map_one_sub (c : List (String × ℚ)) :
    groupbyMean (c.map fun p => (p.1, 1 - p.2))
      = (groupbyMean c).map fun p => (p.1, 1 - p.2) := by
  unfold groupbyMean
  have hfst : (c.map fun p => ((p.1 : String), 1 - p.2)).map Prod.fst = c.map Prod.fst := by
    rw [List.map_map]
    rfl
  rw [hfst, List.map_map]
  apply List.map_congr_left
  intro g hg
  have hg2 : g ∈ c.map Prod.fst := by
    rw [List.mem_insertionSort] at hg
    exact mem_uniqueList.mp hg
  simp only [Function.comp_def]
  rw [groupMean_map_one_sub c g hg2]

theorem meanQ_map_one_sub (l : List ℚ) (hl : l ≠ []) (x : ℚ) (hx : meanQ l = some x) :
    meanQ (l.map fun v => 1 - v) = some (1 - x) := by
  unfold meanQ at hx ⊢
  rw [if_neg (by simpa using hl)] at hx
  rw [if_neg (by simpa using hl)]
  rw [sum_map_one_sub, List.length_map]
  have hlen : ((l.length : ℚ)) ≠ 0 := by
    have := List.length_pos.mpr hl
    positivity
  have hx2 : l.sum / l.length = x := by simpa using hx
  rw [Option.some_inj]
  rw [← hx2]
  field_simp

/-- C9: with a nonempty per-cell table, the batch-ASW scalar of the
`scale=true` call is one minus the batch-ASW scalar of the otherwise
identical `scale=false` call. -/
theorem c9_scaled_asw_complement (sil : SamplesFn) (adata : AData)
    (batch_key label_key embed metric : String) (verbose : Bool)
    (logT logF : List String) (aT aF : Option ℚ) (mT mF cT cF : List (String × ℚ))
    (hT : silhouette_batch sil adata batch_key label_key embed metric true true verbose
      = (logT, Except.ok (BatchReturn.all aT mT cT)))
    (hF : silhouette_batch sil adata batch_key label_key embed metric true false verbose
      = (logF, Except.ok (BatchReturn.all aF mF cF)))
    (hne : cF ≠ []) :
    ∃ x : ℚ, aF = some x ∧ aT = some (1 - x) := by
  obtain ⟨hcT, -, haT⟩ :=
    silhouette_batch_all_inv sil adata batch_key label_key embed metric true verbose
      logT aT mT cT hT
  obtain ⟨hcF, -, haF⟩ :=
    silhouette_batch_all_inv sil adata batch_key label_key embed metric false verbose
      logF aF mF cF hF
  have hctf : cT = cF.map fun p => (p.1, 1 - p.2) := by
    rw [hcT, hcF, batchRecords_scale_true]
  have hmeansT : groupbyMean cT = (groupbyMean cF).map fun p => (p.1, 1 - p.2) := by
    rw [hctf, groupbyMean_map_one_sub]
  have hsndT : (groupbyMean cT).map Prod.snd
      = ((groupbyMean cF).map Prod.snd).map fun v => 1 - v := by
    rw [hmeansT, List.map_map, List.map_map]
    rfl
  have hsne : (groupbyMean cF).map Prod.snd ≠ [] := by
    intro h
    rcases List.exists_mem_of_ne_nil cF hne with ⟨p, hp⟩
    have hmem : p.1 ∈ (groupbyMean cF).map Prod.fst :=
      mem_groupbyMean_fst.mpr (List.mem_map.mpr ⟨p, hp, rfl⟩)
    have hnil : groupbyMean cF = [] := by
      cases hg : groupbyMean cF with
      | nil => rfl
      | cons q t => rw [hg] at h; simp at h
    rw [hnil] at hmem
    simp at hmem
  obtain ⟨x, hx⟩ : ∃ x, meanQ ((groupbyMean cF).map Prod.snd) = some x := by
    unfold meanQ
    rw [if_neg (by simpa using hsne)]
    exact ⟨_, rfl⟩
  refine ⟨x, by rw [haF, hx], ?_⟩
  rw [haT, hsndT, meanQ_map_one_sub _ hsne x hx]

theorem perm_toFinset {α : Type} [DecidableEq α] {lA lB : List α}
    (h : List.Perm lA lB) : lA.toFinset = lB.toFinset := by
  ext a
  simp only [List.mem_toFinset]
  exact h.mem_iff

theorem silSampleModel_perm (d : Vec → Vec → ℚ) {rowsA rowsB : List (Vec × String)}
    (h : List.Perm rowsA rowsB) (p : Vec × String) :
    silSampleModel d rowsA p = silSampleModel d rowsB p := by
  unfold silSampleModel
  have hlen : ∀ c : String, (rowsA.filter fun r => r.2 = c).length
      = (rowsB.filter fun r => r.2 = c).length := fun c => (h.filter _).length_eq
  have hsum : ∀ (x : Vec) (c : String),
      ((rowsA.filter fun r => r.2 = c).map fun r => d x r.1).sum
        = ((rowsB.filter fun r => r.2 = c).map fun r => d x r.1).sum :=
    fun x c => ((h.filter _).map _).sum_eq
  have hfin : (rowsA.map Prod.snd).toFinset = (rowsB.map Prod.snd).toFinset :=
    perm_toFinset (h.map Prod.snd)
  simp only [hlen, hsum, hfin]

theorem silhouette_score_model_perm (d : String → Vec → Vec → ℚ)
    {XA XB : List Vec} {LA LB : List String} (metric : String)
    (h : List.Perm (XA.zip LA) (XB.zip LB)) :
    silhouette_score_model d XA LA metric = silhouette_score_model d XB LB metric := by
  unfold silhouette_score_model
  have hs : List.Perm ((XA.zip LA).map (silSampleModel (d metric) (XA.zip LA)))
      ((XB.zip LB).map (silSampleModel (d metric) (XB.zip LB))) := by
    have h1 : (XA.zip LA).map (silSampleModel (d metric) (XA.zip LA))
        = (XA.zip LA).map (silSampleModel (d metric) (XB.zip LB)) :=
      List.map_congr_left fun p hp => silSampleModel_perm (d metric) h p
    rw [h1]
    exact h.map _
  simp only [hs.sum_eq, hs.length_eq]

/-- C8: the spec-modelled silhouette score is invariant under any permutation
of the observations applied consistently to the embedding rows and the label
column, so `silhouette` returns the same result on the permuted data. -/
theorem c8_permutation_invariance (d : String → Vec → Vec → ℚ)
    (adataA adataB : AData) (label_key embed metric : String) (scale : Bool)
    (hperm : List.Perm
      (((adataA.obsm.lookup embed).getD []).zip ((adataA.obs.lookup label_key).getD []))
      (((adataB.obsm.lookup embed).getD []).zip ((adataB.obs.lookup label_key).getD [])))
    (hA : embed ∈ adataA.obsm.map Prod.fst) (hB : embed ∈ adataB.obsm.map Prod.fst) :
    (silhouette (silhouette_score_model d) adataA label_key embed metric scale).2
      = (silhouette (silhouette_score_model d) adataB label_key embed metric scale).2 := by
  rw [silhouette, silhouette, if_pos hA, if_pos hB]
  simp only
  rw [silhouette_score_model_perm d metric hperm]

/-! ### Concrete data for the witnesses -/

/-- A small annotated dataset: one embedding slot `e`, biological labels `l`
with groups `a` (three cells, two batches) and `b` (one cell, skipped), and
batch labels `b`. -/
def wAData : AData :=
  ⟨[("e", [[0], [0], [1], [2]])], [("l", ["a", "a", "a", "b"]), ("b", ["x", "x", "y", "x"])]⟩

/-- A constant samples primitive returning `1/4` for every observation. -/
def wSamples : SamplesFn := fun _ labs _ => labs.map fun _ => (1 : ℚ)/4

/-- A dataset in which the single biological group has a single batch, so
every group is skipped. -/
def wSkipData : AData :=
  ⟨[("e", [[0], [1]])], [("l", ["a", "a"]), ("b", ["x", "x"])]⟩

theorem wCallTrue :
    silhouette_batch wSamples wAData "b" "l" "e" "euclidean" true true false
      = ([], Except.ok (BatchReturn.all (some (3/4)) [("a", 3/4)]
          [("a", 3/4), ("a", 3/4), ("a", 3/4)])) := by
  simp only [wSamples, wAData, silhouette_batch, batchRecords, groupRecords, groupbyMean,
    groupMean, groupVals, meanQ, nBatches, groupSize, uniqueList, uniqueAux,
    List.insertionSort, List.orderedInsert, List.lookup, List.zip, List.zipWith,
    List.filter, List.map, List.flatMap, List.length, List.sum, List.isEmpty]
  norm_num [abs_of_pos]

theorem wCallFalse :
    silhouette_batch wSamples wAData "b" "l" "e" "euclidean" true false false
      = ([], Except.ok (BatchReturn.all (some (1/4)) [("a", 1/4)]
          [("a", 1/4), ("a", 1/4), ("a", 1/4)])) := by
  simp only [wSamples, wAData, silhouette_batch, batchRecords, groupRecords, groupbyMean,
    groupMean, groupVals, meanQ, nBatches, groupSize, uniqueList, uniqueAux,
    List.insertionSort, List.orderedInsert, List.lookup, List.zip, List.zipWith,
    List.filter, List.map, List.flatMap, List.length, List.sum, List.isEmpty]
  norm_num [abs_of_pos]

/-- Witness for C1 at the concrete dataset. -/
theorem c1_batch_asw_two_level_mean_witness :
    (some ((3:ℚ)/4) : Option ℚ)
      = if ([("a", (3:ℚ)/4), ("a", 3/4), ("a", 3/4)] : List (String × ℚ)) = [] then none
        else some ((∑ g ∈ (([("a", (3:ℚ)/4), ("a", 3/4), ("a", 3/4)] : List (String × ℚ)).map
              Prod.fst).toFinset,
            groupMean [("a", 3/4), ("a", 3/4), ("a", 3/4)] g)
          / ((([("a", (3:ℚ)/4), ("a", 3/4), ("a", 3/4)] : List (String × ℚ)).map
              Prod.fst).toFinset.card : ℚ)) :=
  c1_batch_asw_two_level_mean wSamples wAData "b" "l" "e" "euclidean" true false
    [] (some (3/4)) [("a", 3/4)] [("a", 3/4), ("a", 3/4), ("a", 3/4)] wCallTrue

/-- Witness for C2 at the concrete dataset: group `b` has a single batch. -/
theorem c2_degenerate_groups_skipped_witness :
    ([("a", (3:ℚ)/4), ("a", 3/4), ("a", 3/4)] : List (String × ℚ)).filter
        (fun p => p.1 = "b") = []
      ∧ "b" ∉ ([("a", (3:ℚ)/4)] : List (String × ℚ)).map Prod.fst :=
  c2_degenerate_groups_skipped wSamples wAData "b" "l" "e" "euclidean" true false
    "b" [] (some (3/4)) [("a", 3/4)] [("a", 3/4), ("a", 3/4), ("a", 3/4)]
    wCallTrue (by decide) (by decide)

/-- Witness for C6 at a dataset whose only group has one batch. -/
theorem c6_all_groups_skipped_nan_witness :
    (silhouette_batch wSamples wSkipData "b" "l" "e" "euclidean" false true true).2
      = Except.ok (BatchReturn.scalar none) :=
  c6_all_groups_skipped_nan wSamples wSkipData "b" "l" "e" "euclidean" true true
    (by decide) (by decide)

/-- Witness for C9 at the concrete dataset. -/
theorem c9_scaled_asw_complement_witness :
    ∃ x : ℚ, (some ((1:ℚ)/4) : Option ℚ) = some x
      ∧ (some ((3:ℚ)/4) : Option ℚ) = some (1 - x) :=
  c9_scaled_asw_complement wSamples wAData "b" "l" "e" "euclidean" false
    [] [] (some (3/4)) (some (1/4)) [("a", 3/4)] [("a", 1/4)]
    [("a", 3/4), ("a", 3/4), ("a", 3/4)] [("a", 1/4), ("a", 1/4), ("a", 1/4)]
    wCallTrue wCallFalse (List.cons_ne_nil _ _)

/-- Witness for C10 at the concrete dataset. -/
theorem c10_tables_consistent_witness :
    (([("a", (3:ℚ)/4)] : List (String × ℚ)).map Prod.fst).toFinset
        = (([("a", (3:ℚ)/4), ("a", 3/4), ("a", 3/4)] : List (String × ℚ)).map Prod.fst).toFinset
      ∧ (∀ p ∈ ([("a", (3:ℚ)/4)] : List (String × ℚ)),
          p.2 = groupMean [("a", 3/4), ("a", 3/4), ("a", 3/4)] p.1)
      ∧ ([("a", (3:ℚ)/4), ("a", 3/4), ("a", 3/4)] : List (String × ℚ))
          = (uniqueList ((wAData.obs.lookup "l").getD [])).flatMap
              fun g => ([("a", (3:ℚ)/4), ("a", 3/4), ("a", 3/4)] : List (String × ℚ)).filter
                fun p => p.1 = g :=
  c10_tables_consistent wSamples wAData "b" "l" "e" "euclidean" true false
    [] (some (3/4)) [("a", 3/4)] [("a", 3/4), ("a", 3/4), ("a", 3/4)] wCallTrue

/-- Witness for C8 at a two-point dataset and its swap. -/
theorem c8_permutation_invariance_witness :
    (silhouette (silhouette_score_model fun _ _ _ => 0)
        ⟨[("e", [[0], [1]])], [("l", ["a", "b"])]⟩ "l" "e" "euclidean" true).2
      = (silhouette (silhouette_score_model fun _ _ _ => 0)
        ⟨[("e", [[1], [0]])], [("l", ["b", "a"])]⟩ "l" "e" "euclidean" true).2 :=
  c8_permutation_invariance (fun _ _ _ => 0)
    ⟨[("e", [[0], [1]])], [("l", ["a", "b"])]⟩ ⟨[("e", [[1], [0]])], [("l", ["b", "a"])]⟩
    "l" "e" "euclidean" true (List.Perm.swap ([1], "b") ([0], "a") [])
    (by decide) (by decide)

/-- Witness for C4 at the concrete dataset: group `a` is not skipped. -/
theorem c4_per_cell_transform_witness :
    ([("a", (3:ℚ)/4), ("a", 3/4), ("a", 3/4)] : List (String × ℚ)).filter
        (fun p => p.1 = "a")
        = (wSamples (((((wAData.obs.lookup "l").getD []).zip
              (((wAData.obs.lookup "b").getD []).zip
                ((wAData.obsm.lookup "e").getD []))).filter (fun r => r.1 = "a")).map
              (fun r => r.2.2))
            (((((wAData.obs.lookup "l").getD []).zip
              (((wAData.obs.lookup "b").getD []).zip
                ((wAData.obsm.lookup "e").getD []))).filter (fun r => r.1 = "a")).map
              (fun r => r.2.1)) "euclidean").map
            (fun s => ("a", if true then 1 - |s| else |s|))
      ∧ ∀ q ∈ ([("a", (3:ℚ)/4), ("a", 3/4), ("a", 3/4)] : List (String × ℚ)).filter
          (fun p => p.1 = "a"), 0 ≤ q.2 ∧ q.2 ≤ 1 :=
  c4_per_cell_transform wSamples wAData "b" "l" "e" "euclidean" true false
    "a" [] (some (3/4)) [("a", 3/4)] [("a", 3/4), ("a", 3/4), ("a", 3/4)]
    wCallTrue (by decide) (by decide)
    (by
      intro s hs
      simp only [wSamples] at hs
      rw [List.mem_map] at hs
      obtain ⟨r, hr, rfl⟩ := hs
      norm_num)
